import Mathlib

set_option synthInstance.maxSize 1000

/-!
Shallow embedding of the k8s GPU device plugin (Go) for specification checking.

Go strings are modelled as `List Char`. Go maps are modelled as insertion-ordered
association lists (Go's runtime iteration order is unspecified; every statement
proved below that depends on map contents is insensitive to that order, and the
insertion-order model is documented at each use site). Fallible Go functions
return `Option` / `Except`. Machine integers are modelled as `Int`/`Nat`; the
only wrap-sensitive spot (strconv.ParseInt's 64-bit clamp) is modelled explicitly.
-/

namespace GPUPlugin

/-- Go strings, modelled as lists of characters. -/
abbrev GoStr := List Char

/-! ### Wildcard matcher (src/device/device_map.go, wildCardToRegexp + regexp.MatchString)

The Go code converts a wildcard pattern to a regular expression by splitting the
pattern on `*`, writing `regexp.QuoteMeta(literal)` for each fragment and `.*`
between fragments, then calls `regexp.MatchString(re, name)`.

We model the produced regular expression as a token list: each literal character
(QuoteMeta makes every non-`*` character literal) becomes `GTok.lit c` and each
interposed `.*` becomes `GTok.star`.  `gm` is the standard full-match semantics
of such a token list (`star` matches any character sequence; Go's `.` excludes
the newline character, which cannot occur in the single-line device/profile
names this matcher is applied to, so `star` is modelled as matching any
substring).  Go's `regexp.MatchString` is UNANCHORED: it reports whether any
substring of the subject matches the regex, i.e. whether `.* re .*` matches
the whole subject; `matcherAccepts` models exactly that. -/

/-- One token of the regular expression produced by `wildCardToRegexp`. -/
inductive GTok where
  | lit (c : Char)
  | star
  deriving DecidableEq, Repr

/-- Matching of `.* p` against a string, given the matcher `gmp` for the token
list `p`: either `p` matches the whole string, or the `.*` consumes the first
character and we retry on the tail. -/
def gmStar (gmp : List Char → Bool) : List Char → Bool
  | [] => gmp []
  | d :: s => gmp (d :: s) || gmStar gmp s

/-- Full-match semantics of a glob token list against a string:
`lit c` consumes exactly the character `c`, `star` consumes any (possibly empty)
sequence of characters, and the whole string must be consumed. -/
def gm : List GTok → List Char → Bool
  | [], s => s.isEmpty
  | .lit c :: p, s =>
    match s with
    | [] => false
    | d :: s' => c == d && gm p s'
  | .star :: p, s => gmStar (gm p) s

/-- Direct tokenization of a wildcard pattern: `*` becomes `star`, every other
character is a literal.  This is the spec's glob semantics of the pattern. -/
def tokenizeGlob (pat : List Char) : List GTok :=
  pat.map (fun c => if c = '*' then GTok.star else GTok.lit c)

/-- Translation of the spec sentence "S fully matches P under glob semantics
(`*` = any substring; other characters literal)". -/
def globFullMatch (pat s : List Char) : Bool :=
  gm (tokenizeGlob pat) s

/-- Model of `strings.Split(pattern, "*")` for the single-character separator
`*`: the list of maximal `*`-free fragments (Go returns `[""]` on the empty
string, and empty fragments around adjacent/boundary separators). -/
def splitStar : List Char → List (List Char)
  | [] => [[]]
  | c :: rest =>
    if c = '*' then [] :: splitStar rest
    else
      match splitStar rest with
      | [] => [[c]]
      | p :: ps => (c :: p) :: ps

/-- Token list of the regular expression built by `wildCardToRegexp` from the
split fragments: `QuoteMeta(l0) .* QuoteMeta(l1) .* ... QuoteMeta(lk)`.
`QuoteMeta` turns every character of a fragment into a literal regex atom,
which is `GTok.lit` in the token model. -/
def regexTokens : List (List Char) → List GTok
  | [] => []
  | [l] => l.map GTok.lit
  | l :: ls => l.map GTok.lit ++ GTok.star :: regexTokens ls

/-- Model of `regexp.MatchString(wildCardToRegexp(pattern), s)` as used by
`buildGPUDeviceMap`/`buildMigDeviceMap`: Go's `MatchString` is unanchored, i.e.
it accepts iff `.* re .*` matches the whole string. -/
def matcherAccepts (pat s : List Char) : Bool :=
  gm (GTok.star :: (regexTokens (splitStar pat) ++ [GTok.star])) s

theorem splitStar_ne_nil (pat : List Char) : splitStar pat ≠ [] := by
  cases pat with
  | nil => simp [splitStar]
  | cons c rest =>
    simp only [splitStar]
    split
    · simp
    · cases h : splitStar rest <;> simp

theorem regexTokens_cons_lit (c : Char) (p : List Char) (ps : List (List Char)) :
    regexTokens ((c :: p) :: ps) = GTok.lit c :: regexTokens (p :: ps) := by
  cases ps <;> rfl

/-- The regex `wildCardToRegexp` builds from the `*`-split fragments has, token
for token, exactly the glob semantics of the original pattern. -/
theorem regexTokens_splitStar (pat : List Char) :
    regexTokens (splitStar pat) = tokenizeGlob pat := by
  induction pat with
  | nil => rfl
  | cons c rest ih =>
    rcases h : splitStar rest with _ | ⟨p, ps⟩
    · exact absurd h (splitStar_ne_nil rest)
    rw [h] at ih
    by_cases hc : c = '*'
    · subst hc
      rw [show splitStar ('*' :: rest) = [] :: p :: ps by simp [splitStar, h]]
      rw [show regexTokens ([] :: p :: ps) = GTok.star :: regexTokens (p :: ps) from rfl]
      rw [ih]
      simp [tokenizeGlob]
    · rw [show splitStar (c :: rest) = (c :: p) :: ps by simp [splitStar, hc, h]]
      rw [regexTokens_cons_lit, ih]
      simp [tokenizeGlob, hc]

example : matcherAccepts ['a'] ['b', 'a'] = true := by decide
example : globFullMatch ['a'] ['b', 'a'] = false := by decide
example : globFullMatch ['a', '*'] ['a', 'b'] = true := by decide
example : matcherAccepts ['*'] [] = true := by decide

/-- A leading `.*` matches exactly when some suffix split lets the rest match. -/
theorem gmStar_iff (f : List Char → Bool) (s : List Char) :
    gmStar f s = true ↔ ∃ u m, s = u ++ m ∧ f m = true := by
  induction s with
  | nil =>
    constructor
    · intro h
      exact ⟨[], [], rfl, h⟩
    · rintro ⟨u, m, hum, hf⟩
      rcases List.append_eq_nil.mp hum.symm with ⟨hu, hm⟩
      subst hu; subst hm
      exact hf
  | cons d s' ih =>
    simp only [gmStar, Bool.or_eq_true]
    constructor
    · rintro (h | h)
      · exact ⟨[], d :: s', rfl, h⟩
      · rcases ih.mp h with ⟨u, m, hum, hf⟩
        exact ⟨d :: u, m, by rw [hum]; rfl, hf⟩
    · rintro ⟨u, m, hum, hf⟩
      cases u with
      | nil =>
        left
        rw [List.nil_append] at hum
        rw [← hum] at hf
        exact hf
      | cons e u' =>
        right
        rw [List.cons_append] at hum
        injection hum with he hs
        exact ih.mpr ⟨u', m, hs, hf⟩

/-- A trailing `.*` matches exactly when some prefix split lets the rest match. -/
theorem gm_append_star (t : List GTok) (s : List Char) :
    gm (t ++ [GTok.star]) s = true ↔ ∃ m v, s = m ++ v ∧ gm t m = true := by
  induction t generalizing s with
  | nil =>
    simp only [List.nil_append]
    constructor
    · intro _
      exact ⟨[], s, rfl, rfl⟩
    · intro _
      show gmStar (gm []) s = true
      exact (gmStar_iff _ _).mpr ⟨s, [], by simp, rfl⟩
  | cons tk t' ih =>
    cases tk with
    | lit c =>
      cases s with
      | nil =>
        constructor
        · intro h
          exact (Bool.false_ne_true h).elim
        · rintro ⟨m, v, hmv, hm⟩
          rcases List.append_eq_nil.mp hmv.symm with ⟨hu, _⟩
          subst hu
          exact (Bool.false_ne_true hm).elim
      | cons d s' =>
        have lhs : gm ((GTok.lit c :: t') ++ [GTok.star]) (d :: s')
            = (c == d && gm (t' ++ [GTok.star]) s') := rfl
        rw [lhs, Bool.and_eq_true, beq_iff_eq, ih]
        constructor
        · rintro ⟨hc, m, v, hmv, hm⟩
          refine ⟨d :: m, v, by rw [hmv]; rfl, ?_⟩
          show (c == d && gm t' m) = true
          simp [hc, hm]
        · rintro ⟨m, v, hmv, hm⟩
          cases m with
          | nil => exact (Bool.false_ne_true hm).elim
          | cons e m' =>
            rw [List.cons_append] at hmv
            injection hmv with he hs
            have hm' : (c == e && gm t' m') = true := hm
            rw [Bool.and_eq_true, beq_iff_eq] at hm'
            exact ⟨he ▸ hm'.1, m', v, hs, hm'.2⟩
    | star =>
      constructor
      · intro h
        rw [List.cons_append] at h
        have h1 : gmStar (gm (t' ++ [GTok.star])) s = true := h
        rcases (gmStar_iff _ _).mp h1 with ⟨u, m, hum, hm⟩
        rcases (ih m).mp hm with ⟨w, v, hwv, hw⟩
        refine ⟨u ++ w, v, by rw [hum, hwv, List.append_assoc], ?_⟩
        show gmStar (gm t') (u ++ w) = true
        exact (gmStar_iff _ _).mpr ⟨u, w, rfl, hw⟩
      · rintro ⟨m, v, hmv, hm⟩
        have h1 : gmStar (gm t') m = true := hm
        rcases (gmStar_iff _ _).mp h1 with ⟨u, w, huw, hw⟩
        rw [List.cons_append]
        show gmStar (gm (t' ++ [GTok.star])) s = true
        refine (gmStar_iff _ _).mpr ⟨u, w ++ v, ?_, (ih _).mpr ⟨w, v, rfl, hw⟩⟩
        rw [hmv, huw, List.append_assoc]

/-- Claim C1, counterexample: the wildcard matcher used to classify units into
resource buckets is NOT anchored over the whole string.  For the pattern `a`
and the string `ba`, the matcher (the composition `regexp.MatchString` after
`wildCardToRegexp`, which is unanchored) accepts, although `ba` does not fully
match the glob pattern `a`; so "accepts iff fully matches" fails at this input. -/
theorem matcherAccepts_not_full_anchored :
    matcherAccepts ['a'] ['b', 'a'] = true ∧ globFullMatch ['a'] ['b', 'a'] = false := by
  decide

/-- Claim C1, amended: for every wildcard pattern P and string S, the matcher
used to classify units into resource buckets accepts S iff SOME CONTIGUOUS
SUBSTRING of S fully matches P under glob semantics (`*` matches any substring,
every other character is literal / regex-escaped); the match is unanchored, not
anchored over the whole string. -/
theorem matcherAccepts_iff_substring_glob (pat s : List Char) :
    matcherAccepts pat s = true ↔
      ∃ u m v, s = u ++ m ++ v ∧ globFullMatch pat m = true := by
  unfold matcherAccepts
  rw [regexTokens_splitStar]
  have lhs : gm (GTok.star :: (tokenizeGlob pat ++ [GTok.star])) s
      = gmStar (gm (tokenizeGlob pat ++ [GTok.star])) s := rfl
  rw [lhs, gmStar_iff]
  constructor
  · rintro ⟨u, m, hum, hm⟩
    rcases (gm_append_star _ _).mp hm with ⟨w, v, hwv, hw⟩
    exact ⟨u, w, v, by rw [hum, hwv, List.append_assoc], hw⟩
  · rintro ⟨u, m, v, huv, hm⟩
    exact ⟨u, m ++ v, by rw [huv, List.append_assoc], (gm_append_star _ _).mpr ⟨m, v, rfl, hm⟩⟩

/-! ### Replica-annotated ids (src/device/devices.go, AnnotatedID)

`NewAnnotatedID(id, replica)` is `fmt.Sprintf("%s::%d", id, replica)`.
`Split` is `strings.SplitN(string(r), "::", 2)` — split at the FIRST occurrence
of the separator — followed by `strconv.ParseInt(split[1], 10, 0)` whose error
is ignored (`replica, _ := ...`), so a malformed suffix yields index 0 and an
out-of-range suffix yields the clamped value ParseInt returns. -/

/-- The annotation separator `::`. -/
def sepChars : List Char := [':', ':']

/-- Split a string at the first occurrence of `::`: `none` when the separator
does not occur, otherwise the fragments before and after its first occurrence.
This is the semantics of `strings.SplitN(s, "::", 2)`. -/
def splitSepOnce : List Char → Option (List Char × List Char)
  | [] => none
  | c :: rest =>
    if sepChars.isPrefixOf (c :: rest) then some ([], (c :: rest).drop 2)
    else (splitSepOnce rest).map (fun p => (c :: p.1, p.2))

/-- Decimal digit test, as in strconv's number syntax for base 10. -/
def isDigit (c : Char) : Bool := '0' ≤ c && c ≤ '9'

/-- Numeric value of a decimal digit character. -/
def digitVal (c : Char) : Nat := c.toNat - 48

/-- Decimal digit-string parser: `some` of the value for a non-empty all-digit
string, `none` (syntax error) otherwise. -/
def parseDigits (ds : List Char) : Option Nat :=
  if ds.isEmpty then none
  else if ds.all isDigit then some (ds.foldl (fun a c => a * 10 + digitVal c) 0)
  else none

/-- Model of `strconv.ParseInt(s, 10, 0)` as consumed by `AnnotatedID.Split`:
optional single sign, then decimal digits; the returned value is 0 on a syntax
error and the int64-clamped value on a range error (Split ignores the error and
uses the returned value in both cases). -/
def parseIntGo (s : List Char) : Int :=
  match s with
  | [] => 0
  | c :: rest =>
    if c = '-' then
      match parseDigits rest with
      | none => 0
      | some n => if (2 : Int) ^ 63 < (n : Int) then -(2 ^ 63) else -(n : Int)
    else
      let ds := if c = '+' then rest else c :: rest
      match parseDigits ds with
      | none => 0
      | some n => if (2 : Int) ^ 63 ≤ (n : Int) then 2 ^ 63 - 1 else (n : Int)

/-- Little-endian decimal digits of `n`, with explicit fuel so the definition is
structurally recursive (the fuel `n` itself always suffices). -/
def decDigitsRev (fuel n : Nat) : List Nat :=
  match fuel with
  | 0 => []
  | fuel + 1 => if n = 0 then [] else (n % 10) :: decDigitsRev fuel (n / 10)

/-- Model of `fmt.Sprintf "%d"` for a non-negative integer: its decimal digit
string, most significant digit first. -/
def natToDecimal (n : Nat) : List Char :=
  if n = 0 then ['0']
  else ((decDigitsRev n n).reverse.map (fun d => Char.ofNat (48 + d)))

/-- `NewAnnotatedID(id, replica)`: `fmt.Sprintf("%s::%d", id, replica)` for a
non-negative replica number. -/
def NewAnnotatedID (id : GoStr) (replica : Nat) : GoStr :=
  id ++ sepChars ++ natToDecimal replica

/-- `AnnotatedID.Split`: first-occurrence split on `::`; without a separator the
id is returned with index 0; otherwise the suffix is parsed with ParseInt,
whose error is ignored. -/
def AnnotatedID.Split (r : GoStr) : GoStr × Int :=
  match splitSepOnce r with
  | none => (r, 0)
  | some (pre, post) => (pre, parseIntGo post)

/-- `AnnotatedID.GetID`: the base id, i.e. the first component of `Split`. -/
def AnnotatedID.GetID (r : GoStr) : GoStr := (AnnotatedID.Split r).1

/-- `AnnotatedID.HasAnnotations`: whether `SplitN(r, "::", 2)` produced two
fragments, i.e. whether the separator occurs in the id. -/
def AnnotatedID.HasAnnotations (r : GoStr) : Bool := (splitSepOnce r).isSome

/-- `AnnotatedIDs.AnyHasAnnotations`: whether any id of the list is annotated. -/
def AnnotatedIDs.AnyHasAnnotations (rs : List GoStr) : Bool :=
  rs.any AnnotatedID.HasAnnotations

example : AnnotatedID.Split ['a', ':', ':', '3'] = (['a'], 3) := by decide
example : AnnotatedID.Split ['a', 'b'] = (['a', 'b'], 0) := by decide
example : NewAnnotatedID ['a'] 12 = ['a', ':', ':', '1', '2'] := by decide

theorem decDigitsRev_eq_digits (fuel n : Nat) (h : n ≤ fuel) :
    decDigitsRev fuel n = Nat.digits 10 n := by
  induction fuel generalizing n with
  | zero =>
    interval_cases n
    simp [decDigitsRev]
  | succ fuel ih =>
    by_cases hn : n = 0
    · subst hn; simp [decDigitsRev]
    · have hdiv : n / 10 ≤ fuel := by
        have : n / 10 < n := Nat.div_lt_self (Nat.pos_of_ne_zero hn) (by norm_num)
        omega
      rw [show decDigitsRev (fuel + 1) n = (n % 10) :: decDigitsRev fuel (n / 10) by
        simp [decDigitsRev, hn]]
      rw [ih (n / 10) hdiv, Nat.digits_def' (by norm_num : 1 < 10) (Nat.pos_of_ne_zero hn)]

theorem foldl_mul_add_reverse (L : List Nat) (a : Nat) :
    L.reverse.foldl (fun acc d => acc * 10 + d) a = a * 10 ^ L.length + Nat.ofDigits 10 L := by
  induction L generalizing a with
  | nil => simp
  | cons d L' ih =>
    rw [List.reverse_cons, List.foldl_append, ih]
    simp only [List.foldl_cons, List.foldl_nil, Nat.ofDigits_cons, List.length_cons]
    rw [pow_succ]
    ring

theorem digitChar_props (d : Nat) (h : d < 10) :
    isDigit (Char.ofNat (48 + d)) = true ∧ digitVal (Char.ofNat (48 + d)) = d
      ∧ Char.ofNat (48 + d) ≠ ':' ∧ Char.ofNat (48 + d) ≠ '-'
      ∧ Char.ofNat (48 + d) ≠ '+' := by
  interval_cases d <;> decide

theorem natToDecimal_mem (n : Nat) (c : Char) (hc : c ∈ natToDecimal n) :
    isDigit c = true ∧ c ≠ ':' ∧ c ≠ '-' ∧ c ≠ '+' := by
  unfold natToDecimal at hc
  by_cases hn : n = 0
  · rw [if_pos hn] at hc
    simp only [List.mem_singleton] at hc
    subst hc; refine ⟨by decide, by decide, by decide, by decide⟩
  · rw [if_neg hn, decDigitsRev_eq_digits n n le_rfl] at hc
    rcases List.mem_map.mp hc with ⟨d, hd, hcd⟩
    have hd10 : d < 10 :=
      Nat.digits_lt_base (by norm_num) (List.mem_reverse.mp hd)
    obtain ⟨h1, _, h3, h4, h5⟩ := digitChar_props d hd10
    subst hcd
    exact ⟨h1, h3, h4, h5⟩

theorem natToDecimal_ne_nil (n : Nat) : natToDecimal n ≠ [] := by
  unfold natToDecimal
  by_cases hn : n = 0
  · simp [hn]
  · rw [if_neg hn, decDigitsRev_eq_digits n n le_rfl]
    have hne : Nat.digits 10 n ≠ [] := Nat.digits_ne_nil_iff_ne_zero.mpr hn
    simp [hne]

theorem foldl_digitVal_chr (L : List Nat) (a : Nat) (h : ∀ d ∈ L, d < 10) :
    L.foldl (fun acc d => acc * 10 + digitVal (Char.ofNat (48 + d))) a
      = L.foldl (fun acc d => acc * 10 + d) a := by
  induction L generalizing a with
  | nil => rfl
  | cons d L' ih =>
    simp only [List.foldl_cons]
    rw [(digitChar_props d (h d (List.mem_cons_self d L'))).2.1]
    exact ih _ (fun x hx => h x (List.mem_cons_of_mem d hx))

theorem parseDigits_natToDecimal (n : Nat) : parseDigits (natToDecimal n) = some n := by
  by_cases hn : n = 0
  · subst hn; decide
  · have hL : natToDecimal n
        = (Nat.digits 10 n).reverse.map (fun d => Char.ofNat (48 + d)) := by
      unfold natToDecimal
      rw [if_neg hn, decDigitsRev_eq_digits n n le_rfl]
    have hlt : ∀ d ∈ (Nat.digits 10 n).reverse, d < 10 := fun d hd =>
      Nat.digits_lt_base (by norm_num) (List.mem_reverse.mp hd)
    have hne : natToDecimal n ≠ [] := natToDecimal_ne_nil n
    have hall : (natToDecimal n).all isDigit = true := by
      rw [List.all_eq_true]
      exact fun c hc => (natToDecimal_mem n c hc).1
    unfold parseDigits
    rw [if_neg (by simp [List.isEmpty_iff, hne]), if_pos hall, hL, List.foldl_map]
    rw [foldl_digitVal_chr _ _ hlt, foldl_mul_add_reverse, Nat.ofDigits_digits]
    simp

theorem parseIntGo_natToDecimal (n : Nat) (h : (n : Int) < 2 ^ 63) :
    parseIntGo (natToDecimal n) = (n : Int) := by
  rcases hM : natToDecimal n with _ | ⟨c, rest⟩
  · exact absurd hM (natToDecimal_ne_nil n)
  · have hc : c ∈ natToDecimal n := by rw [hM]; exact List.mem_cons_self _ _
    obtain ⟨_, _, hminus, hplus⟩ := natToDecimal_mem n c hc
    have hparse : parseDigits (c :: rest) = some n := by
      rw [← hM]; exact parseDigits_natToDecimal n
    simp only [parseIntGo, if_neg hminus, if_neg hplus, hparse]
    rw [if_neg (by omega)]

theorem splitSepOnce_append (id ds : GoStr)
    (h1 : splitSepOnce id = none)
    (h2 : id.getLast? ≠ some ':') :
    splitSepOnce (id ++ sepChars ++ ds) = some (id, ds) := by
  induction id with
  | nil =>
    simp [splitSepOnce, sepChars, List.isPrefixOf]
  | cons c id' ih =>
    have hs : (c :: id') ++ sepChars ++ ds = c :: (id' ++ sepChars ++ ds) := by
      simp
    by_cases hp : sepChars.isPrefixOf (c :: id')
    · rw [splitSepOnce, if_pos hp] at h1
      exact absurd h1 (by simp)
    · rw [splitSepOnce, if_neg hp] at h1
      have h1' : splitSepOnce id' = none := Option.map_eq_none'.mp h1
      have hnp : ¬ sepChars.isPrefixOf (c :: (id' ++ sepChars ++ ds)) := by
        intro hpre
        simp only [sepChars, List.isPrefixOf, Bool.and_eq_true, beq_iff_eq] at hpre
        cases id' with
        | nil =>
          have hcc : c = ':' := hpre.1.symm
          exact h2 (by simp [hcc])
        | cons c' id'' =>
          rcases hpre with ⟨hc1, hc2⟩
          simp only [List.cons_append, List.isPrefixOf, Bool.and_eq_true, beq_iff_eq] at hc2
          apply hp
          simp only [sepChars, List.isPrefixOf, Bool.and_eq_true, beq_iff_eq]
          exact ⟨hc1, hc2.1, trivial⟩
      rw [hs, splitSepOnce, if_neg hnp]
      have h2' : id'.getLast? ≠ some ':' := by
        cases id' with
        | nil => simp
        | cons c' id'' =>
          rw [List.getLast?_cons_cons] at h2
          exact h2
      rw [ih h1' h2']
      rfl

/-- Claim C9, counterexample: the round trip `Split (NewAnnotatedID id idx) = (id, idx)`
fails for ids that end with a single ':' even though they do not contain the
separator `::`: composing `"a:"` with index 0 gives `"a:::0"`, whose FIRST `::`
occurrence sits one character early, so decomposition yields `("a", 0)`,
not `("a:", 0)`. -/
theorem annotatedID_roundtrip_fails_on_trailing_colon :
    AnnotatedID.HasAnnotations ['a', ':'] = false
      ∧ AnnotatedID.Split (NewAnnotatedID ['a', ':'] 0) = (['a'], 0)
      ∧ AnnotatedID.Split (NewAnnotatedID ['a', ':'] 0) ≠ (['a', ':'], 0) := by
  decide

/-- Claim C9, amended: for every id string not containing the separator `::`
AND NOT ENDING WITH ':' , and every non-negative index below 2^63 (the Go int
range), decomposing the composed annotated id yields the original pair; and
decomposing an id without the separator defaults the index to 0. -/
theorem annotatedID_roundtrip (id : GoStr) (idx : Nat)
    (hsep : AnnotatedID.HasAnnotations id = false)
    (hlast : id.getLast? ≠ some ':')
    (hidx : (idx : Int) < 2 ^ 63) :
    AnnotatedID.Split (NewAnnotatedID id idx) = (id, (idx : Int))
      ∧ AnnotatedID.Split id = (id, 0) := by
  have hnone : splitSepOnce id = none := by
    unfold AnnotatedID.HasAnnotations at hsep
    cases h : splitSepOnce id with
    | none => rfl
    | some p => rw [h] at hsep; simp at hsep
  constructor
  · unfold NewAnnotatedID AnnotatedID.Split
    rw [splitSepOnce_append id (natToDecimal idx) hnone hlast]
    show (id, parseIntGo (natToDecimal idx)) = (id, (idx : Int))
    rw [parseIntGo_natToDecimal idx hidx]
  · unfold AnnotatedID.Split
    rw [hnone]

/-- Witness for the amended claim C9 at the concrete input id = "GPU0", idx = 7. -/
theorem annotatedID_roundtrip_witness :
    (AnnotatedID.HasAnnotations ['G', 'P', 'U', '0'] = false
        ∧ (['G', 'P', 'U', '0'] : GoStr).getLast? ≠ some ':'
        ∧ ((7 : Nat) : Int) < 2 ^ 63)
      ∧ AnnotatedID.Split (NewAnnotatedID ['G', 'P', 'U', '0'] 7)
          = (['G', 'P', 'U', '0'], ((7 : Nat) : Int)) := by
  refine ⟨⟨by decide, by decide, by decide⟩, ?_⟩
  exact (annotatedID_roundtrip ['G', 'P', 'U', '0'] 7 (by decide) (by decide) (by decide)).1

/-! ### Device records and inventories (src/device/devices.go)

`Devices` is `map[string]*Device` in Go; it is modelled as an insertion-ordered
association list (Go's iteration order is unspecified; all claim statements
below are insensitive to the order).  `setEntry` always keys an entry by the
device's `ID` field. -/

/-- Device (src/device/devices.go): the embedded pluginapi.Device fields this
codebase uses (ID, Health, Topology) are inlined. -/
structure Device where
  ID : GoStr
  Health : GoStr
  /-- NUMA node id, when the device reports one. -/
  Topology : Option Int
  Paths : List GoStr
  Index : GoStr
  TotalMemory : Nat
  ComputeCapability : GoStr
  Replicas : Nat
  deriving DecidableEq, Repr

/-- The `pluginapi.Healthy` constant. -/
def healthyStr : GoStr := ['H', 'e', 'a', 'l', 't', 'h', 'y']

/-- Per-resource device inventory: `map[string]*Device` as an association list. -/
abbrev Devices := List (GoStr × Device)

/-- Go's `_, exists := ds[id]` key-existence test. -/
def Devices.hasKey (ds : Devices) (id : GoStr) : Bool :=
  ds.any (fun kv => kv.1 == id)

/-- `Devices.Contains(ids...)`: true iff every given id is a key of the map. -/
def Devices.Contains (ds : Devices) (ids : List GoStr) : Bool :=
  ids.all (fun id => ds.hasKey id)

/-- The sentinel device-node path `/dev/dxg` that rules out aligned allocation. -/
def dxgPath : GoStr := ['/', 'd', 'e', 'v', '/', 'd', 'x', 'g']

/-- `Device.IsMigDevice`: `strings.Contains(d.Index, ":")` — sub-partitions have
a `:`-joined topology index. -/
def Device.IsMigDevice (d : Device) : Bool := d.Index.contains ':'

/-- `Device.AlignedAllocationSupported`: false for a MIG sub-partition and for a
device any of whose paths is the `/dev/dxg` sentinel; true otherwise. -/
def Device.AlignedAllocationSupported (d : Device) : Bool :=
  if d.IsMigDevice then false
  else d.Paths.all (fun p => !(p == dxgPath))

/-- `Devices.AlignedAllocationSupported`: every device of the inventory
supports aligned allocation. -/
def Devices.AlignedAllocationSupported (ds : Devices) : Bool :=
  ds.all (fun kv => kv.2.AlignedAllocationSupported)

/-! ### Allocate (plugin Allocate, src/unnamed/part_003 lines 210-225)

Per container request the plugin validates that every requested id is a key of
its inventory — failing the WHOLE call otherwise — and answers with an
environment binding of NVIDIA_VISIBLE_DEVICES to the comma-joined requested
ids.  The source never writes to `plugin.devices`, so the call is a pure
function of the inventory (the inventory is left unchanged by construction);
a container response is modelled by the bound environment string, its only
content. -/

/-- `strings.Join(ids, ",")`. -/
def joinComma : List GoStr → GoStr
  | [] => []
  | [x] => x
  | x :: xs => x ++ ',' :: joinComma xs

/-- The Allocate call over the per-container device-id lists: `none` models the
Go error return (no responses at all), `some envs` the per-container
NVIDIA_VISIBLE_DEVICES bindings in request order. -/
def Allocate (devs : Devices) : List (List GoStr) → Option (List GoStr)
  | [] => some []
  | req :: rest =>
    if devs.Contains req then (Allocate devs rest).map (fun rs => joinComma req :: rs)
    else none

/-! ### Preferred-allocation policy selection (src/unnamed/part_003 lines 248-254) -/

/-- The two allocation policies of getPreferredAllocation. -/
inductive AllocPolicy where
  | aligned
  | distributed
  deriving DecidableEq, Repr

/-- The policy selection of `getPreferredAllocation`: topology-aligned iff the
whole inventory supports aligned allocation and no available id carries a
replica annotation; replica-distributed otherwise. -/
def getPreferredAllocationPolicy (devs : Devices) (availableDeviceIDs : List GoStr) :
    AllocPolicy :=
  if devs.AlignedAllocationSupported && !(AnnotatedIDs.AnyHasAnnotations availableDeviceIDs)
  then .aligned
  else .distributed

/-- Claim C6: the topology-aligned policy is chosen iff every device in the
resource's inventory supports aligned allocation and no available id is
replica-annotated; and a single device supports aligned allocation exactly when
its topology index contains no ':' and none of its device-node paths is the
sentinel path /dev/dxg. -/
theorem preferred_allocation_policy_choice (devs : Devices) (avail : List GoStr) :
    (getPreferredAllocationPolicy devs avail = .aligned ↔
      ((∀ kv ∈ devs, kv.2.AlignedAllocationSupported = true)
        ∧ ∀ id ∈ avail, AnnotatedID.HasAnnotations id = false))
  ∧ ∀ d : Device, d.AlignedAllocationSupported = true ↔
      (d.Index.contains ':' = false ∧ ∀ p ∈ d.Paths, p ≠ dxgPath) := by
  constructor
  · unfold getPreferredAllocationPolicy
    split
    · rename_i hcond
      rw [Bool.and_eq_true, Bool.not_eq_true'] at hcond
      simp only [Devices.AlignedAllocationSupported, List.all_eq_true] at hcond
      simp only [AnnotatedIDs.AnyHasAnnotations] at hcond
      constructor
      · intro _
        refine ⟨hcond.1, ?_⟩
        intro id hid
        have := hcond.2
        rw [List.any_eq_false] at this
        exact Bool.not_eq_true _ ▸ (by simpa using this id hid)
      · intro _; rfl
    · rename_i hcond
      rw [Bool.and_eq_true, Bool.not_eq_true'] at hcond
      simp only [Devices.AlignedAllocationSupported, List.all_eq_true,
        AnnotatedIDs.AnyHasAnnotations] at hcond
      constructor
      · intro h; exact absurd h (by simp)
      · rintro ⟨hall, hann⟩
        exfalso
        apply hcond
        refine ⟨hall, ?_⟩
        rw [List.any_eq_false]
        intro id hid
        simp [hann id hid]
  · intro d
    unfold Device.AlignedAllocationSupported
    by_cases hm : d.IsMigDevice
    · rw [if_pos hm]
      unfold Device.IsMigDevice at hm
      constructor
      · intro h
        exact absurd h (by simp)
      · rintro ⟨h1, _⟩
        rw [hm] at h1
        exact absurd h1 (by simp)
    · rw [if_neg hm]
      unfold Device.IsMigDevice at hm
      rw [Bool.not_eq_true] at hm
      simp only [hm, List.all_eq_true, true_and]
      constructor
      · intro h p hp
        have hb := h p hp
        rw [Bool.not_eq_true'] at hb
        exact beq_eq_false_iff_ne.mp hb
      · intro h p hp
        rw [Bool.not_eq_true']
        exact beq_eq_false_iff_ne.mpr (h p hp)

/-- Claim C7: an allocate call fails (returning no responses) iff some
requested id of some container request is absent from the inventory; otherwise
it returns, per container, NVIDIA_VISIBLE_DEVICES bound to the comma-joined
requested ids in request order.  (The inventory is read-only in the source, so
it is trivially left unchanged.) -/
theorem allocate_contract (devs : Devices) (reqs : List (List GoStr)) :
    Allocate devs reqs =
      (if reqs.all (fun req => devs.Contains req) then some (reqs.map joinComma) else none)
  ∧ (Allocate devs reqs = none ↔ ∃ req ∈ reqs, ∃ id ∈ req, devs.hasKey id = false) := by
  have hmain : Allocate devs reqs =
      (if reqs.all (fun req => devs.Contains req) then some (reqs.map joinComma) else none) := by
    induction reqs with
    | nil => rfl
    | cons req rest ih =>
      by_cases hr : devs.Contains req = true
      · rw [show Allocate devs (req :: rest) = (Allocate devs rest).map (fun rs => joinComma req :: rs) by
          simp [Allocate, hr]]
        rw [ih]
        by_cases hrest : rest.all (fun req => devs.Contains req) = true
        · simp [List.all_cons, hr, hrest]
        · simp [List.all_cons, hr, hrest]
      · simp [Allocate, hr, List.all_cons]
  refine ⟨hmain, ?_⟩
  rw [hmain]
  by_cases hall : reqs.all (fun req => devs.Contains req) = true
  · rw [if_pos hall]
    simp only [List.all_eq_true, Devices.Contains] at hall
    constructor
    · intro h; exact absurd h (by simp)
    · rintro ⟨req, hreq, id, hid, hkey⟩
      exact absurd (hall req hreq id hid) (by simp [hkey])
  · rw [if_neg hall]
    simp only [List.all_eq_true, Devices.Contains] at hall
    push_neg at hall
    rcases hall with ⟨req, hreq, id, hid, hkey⟩
    constructor
    · intro _
      exact ⟨req, hreq, id, hid, by simpa using hkey⟩
    · intro _; rfl

/-- Claim C10: a container request with an empty device-id list always
succeeds: the containment test over zero ids is vacuously true, and the
container response binds NVIDIA_VISIBLE_DEVICES to the empty string rather
than failing the call. -/
theorem allocate_empty_request_succeeds (devs : Devices) :
    Devices.Contains devs [] = true
  ∧ Allocate devs [[]] = some [[]]
  ∧ ∀ rest, Allocate devs ([] :: rest) = (Allocate devs rest).map (fun rs => [] :: rs) := by
  refine ⟨rfl, rfl, fun rest => rfl⟩

/-! ### Replica-distributed allocation (src/unnamed/part_003, distributedAlloc)

`candidates := devices.Subset(available).Difference(devices.Subset(required)).GetIDs()`
is computed on Go maps keyed by id (`setEntry` keys each entry by `dev.ID`, so
`GetIDs` returns the keys); the maps are modelled insertion-ordered, giving the
candidates in first-occurrence `available` order.  The `sort.Slice` call inside
the loop guarantees only sortedness by the comparator — ties are left in an
implementation-defined order — and is modelled by a deterministic stable
insertion sort; every statement proved about `distributedAlloc` below depends
only on lengths and membership, which are invariant under any tie order. -/

/-- Keep-first key deduplication: the key list of a Go map built by inserting
the given keys in order (a duplicate insert overwrites the value, adding no new
key). -/
def dedupKeysAux (seen : List GoStr) : List GoStr → List GoStr
  | [] => []
  | x :: xs =>
    if seen.contains x then dedupKeysAux seen xs
    else x :: dedupKeysAux (x :: seen) xs

/-- Key list of `Devices.Subset(ids)`: the ids that are keys of the inventory,
in first-occurrence order. -/
def Devices.subsetKeys (ds : Devices) (ids : List GoStr) : List GoStr :=
  dedupKeysAux [] (ids.filter (fun id => ds.hasKey id))

/-- The candidate ids of distributedAlloc: available ids known to the inventory
minus those claimed by `required` (`Difference` drops the keys of
`Subset(required)`). -/
def candidatesOf (devs : Devices) (available required : List GoStr) : List GoStr :=
  (devs.subsetKeys available).filter
    (fun id => !((devs.subsetKeys required).contains id))

/-- The `replicas` counter map of distributedAlloc after its two initialisation
loops, as a total function from base id to (total, available): `total` counts
the inventory keys with that base id, `available` counts the candidates with
that base id.  (The Go map holds entries only for bases that occur among the
candidates; the algorithm never reads any other base, so the extra points of
the function model are immaterial.) -/
def replInit (devs : Devices) (cands : List GoStr) (b : GoStr) : Int × Int :=
  ((((devs.map (fun kv => kv.1)).filter (fun d => AnnotatedID.GetID d == b)).length : Int),
   (((cands.filter (fun c => AnnotatedID.GetID c == b)).length : Int)))

/-- `replicas[b].available--`. -/
def replDec (repl : GoStr → Int × Int) (b : GoStr) : GoStr → Int × Int :=
  fun x => if x == b then ((repl b).1, (repl b).2 - 1) else repl x

/-- The (total − available) skew the comparator reads for a candidate's base
id (`idiff`/`jdiff` in the source). -/
def skewOf (repl : GoStr → Int × Int) (c : GoStr) : Int :=
  (repl (AnnotatedID.GetID c)).1 - (repl (AnnotatedID.GetID c)).2

/-- The comparator of the `sort.Slice` call: strictly smaller skew. -/
def skewLT (repl : GoStr → Int × Int) (i j : GoStr) : Bool :=
  decide (skewOf repl i < skewOf repl j)

/-- Stable ordered insertion w.r.t. a strict comparator: `x` is placed before
the first element NOT strictly below it, so elements comparing equal keep their
relative order. -/
def insertLT (lt : GoStr → GoStr → Bool) (x : GoStr) : List GoStr → List GoStr
  | [] => [x]
  | y :: ys => if lt y x then y :: insertLT lt x ys else x :: y :: ys

/-- Model of `sort.Slice(candidates, less)` (see the section comment: a
deterministic stable refinement of Go's unstable sort; for slices shorter than
12 elements Go's sort performs exactly this stable insertion sort). -/
def sortLT (lt : GoStr → GoStr → Bool) : List GoStr → List GoStr
  | [] => []
  | x :: xs => insertLT lt x (sortLT lt xs)

/-- The selection loop of distributedAlloc: `needed` times, sort the remaining
candidates by ascending skew, pick the head, decrement its base id's available
counter, and drop the pick from the candidate list.  `none` models the panic of
indexing an empty slice, unreachable under the length guard. -/
def pickLoop (repl : GoStr → Int × Int) (cands : List GoStr) : Nat → Option (List GoStr)
  | 0 => some []
  | n + 1 =>
    match sortLT (skewLT repl) cands with
    | [] => none
    | c :: rest =>
      (pickLoop (replDec repl (AnnotatedID.GetID c)) rest n).map (fun ds => c :: ds)

/-- `distributedAlloc(available, required, size)`: error (`none`) when more
candidates are needed than exist; otherwise `required ++` the picked
candidates. -/
def distributedAlloc (devs : Devices) (available required : List GoStr) (size : Int) :
    Option (List GoStr) :=
  let candidates := candidatesOf devs available required
  let needed : Int := size - (required.length : Int)
  if (candidates.length : Int) < needed then none
  else
    (pickLoop (replInit devs candidates) candidates needed.toNat).map
      (fun picks => required ++ picks)

theorem insertLT_length (lt : GoStr → GoStr → Bool) (x : GoStr) (l : List GoStr) :
    (insertLT lt x l).length = l.length + 1 := by
  induction l with
  | nil => rfl
  | cons y ys ih =>
    unfold insertLT
    split
    · simp [ih]
    · rfl

theorem sortLT_length (lt : GoStr → GoStr → Bool) (l : List GoStr) :
    (sortLT lt l).length = l.length := by
  induction l with
  | nil => rfl
  | cons x xs ih =>
    unfold sortLT
    rw [insertLT_length, ih]
    rfl

theorem pickLoop_total (n : Nat) :
    ∀ (repl : GoStr → Int × Int) (cands : List GoStr), n ≤ cands.length →
      ∃ picks, pickLoop repl cands n = some picks ∧ picks.length = n := by
  induction n with
  | zero => exact fun repl cands _ => ⟨[], rfl, rfl⟩
  | succ n ih =>
    intro repl cands h
    rcases hs : sortLT (skewLT repl) cands with _ | ⟨c, rest⟩
    · exfalso
      have := sortLT_length (skewLT repl) cands
      rw [hs] at this
      simp at this
      omega
    · have hrest : n ≤ rest.length := by
        have := sortLT_length (skewLT repl) cands
        rw [hs] at this
        simp at this
        omega
      rcases ih (replDec repl (AnnotatedID.GetID c)) rest hrest with ⟨picks, hp, hl⟩
      refine ⟨c :: picks, ?_, by simp [hl]⟩
      unfold pickLoop
      rw [hs]
      show (pickLoop (replDec repl (AnnotatedID.GetID c)) rest n).map (fun ds => c :: ds)
        = some (c :: picks)
      rw [hp]
      rfl

/-- Claim C2, counterexample: when `count < |required|` the call SUCCEEDS and
returns the required ids — i.e. MORE than `count` ids — contradicting "if it
succeeds it returns exactly count ids".  Concretely, with an empty inventory,
no available ids, required = ["a"] and count = 0, the call returns ["a"]
(1 id ≠ 0 requested). -/
theorem distributedAlloc_exact_count_cex :
    distributedAlloc [] [] [['a']] 0 = some [['a']]
      ∧ (((([['a']] : List GoStr)).length : Int) ≠ (0 : Int)) := by
  decide

/-- Claim C2, amended: if the replica-distributed allocation succeeds it always
includes every id of `required`, and — PROVIDED `count ≥ |required|` — returns
exactly `count` ids; it fails, returning no ids at all (never a partial
result), precisely when `count − |required|` exceeds the number of satisfiable
candidates (available ids known to the inventory and not in `required`).
(When `count < |required|` the Go code succeeds and returns just the required
ids, which is what forces the proviso.) -/
theorem distributedAlloc_contract (devs : Devices) (available required : List GoStr)
    (size : Int) :
    (distributedAlloc devs available required size = none ↔
      ((candidatesOf devs available required).length : Int) < size - (required.length : Int))
  ∧ ∀ ds, distributedAlloc devs available required size = some ds →
      ((∀ r ∈ required, r ∈ ds)
        ∧ (((required.length : Int) ≤ size) → ((ds.length : Int) = size))) := by
  by_cases hlt : ((candidatesOf devs available required).length : Int)
      < size - (required.length : Int)
  · have hnone : distributedAlloc devs available required size = none := by
      unfold distributedAlloc
      rw [if_pos hlt]
    refine ⟨by rw [hnone]; exact ⟨fun _ => hlt, fun _ => rfl⟩, ?_⟩
    intro ds hds
    rw [hnone] at hds
    exact absurd hds (by simp)
  · have hle : (size - (required.length : Int)).toNat
        ≤ (candidatesOf devs available required).length := by omega
    rcases pickLoop_total _ (replInit devs (candidatesOf devs available required))
        (candidatesOf devs available required) hle with ⟨picks, hp, hlen⟩
    have hsome : distributedAlloc devs available required size
        = some (required ++ picks) := by
      unfold distributedAlloc
      rw [if_neg hlt, hp]
      rfl
    constructor
    · rw [hsome]
      exact ⟨fun h => absurd h (by simp), fun h => absurd h hlt⟩
    · intro ds hds
      rw [hsome] at hds
      injection hds with hds
      subst hds
      constructor
      · exact fun r hr => List.mem_append_left _ hr
      · intro hreq
        rw [List.length_append, hlen]
        push_cast
        omega

/-- Witness for the amended claim C2 at a concrete input: inventory
a ↦ devA, b ↦ devB; available = [a, b]; required = [a]; count = 2. -/
def devA : Device :=
  { ID := ['a'], Health := [], Topology := none, Paths := [], Index := ['0'],
    TotalMemory := 0, ComputeCapability := [], Replicas := 0 }

/-- Second example device, used by concrete witnesses. -/
def devB : Device :=
  { ID := ['b'], Health := [], Topology := none, Paths := [], Index := ['1'],
    TotalMemory := 0, ComputeCapability := [], Replicas := 0 }

/-- Example two-device inventory used by concrete witnesses. -/
def exDevs : Devices := [(['a'], devA), (['b'], devB)]

theorem distributedAlloc_contract_witness :
    distributedAlloc exDevs [['a'], ['b']] [['a']] 2 = some [['a'], ['b']]
      ∧ ((([['a']] : List GoStr).length : Int) ≤ 2)
      ∧ (∀ r ∈ ([['a']] : List GoStr), r ∈ ([['a'], ['b']] : List GoStr))
      ∧ ((([['a'], ['b']] : List GoStr).length : Int) = 2) := by
  have h := (distributedAlloc_contract exDevs [['a'], ['b']] [['a']] 2).2
      [['a'], ['b']] (by decide)
  exact ⟨by decide, by decide, h.1, h.2 (by decide)⟩

/-! ### The greedy structure of the distributed pick loop (claim C3) -/

theorem insertLT_perm (lt : GoStr → GoStr → Bool) (x : GoStr) (l : List GoStr) :
    (insertLT lt x l).Perm (x :: l) := by
  induction l with
  | nil => exact List.Perm.refl _
  | cons y ys ih =>
    unfold insertLT
    split
    · exact ((ih.cons y).trans (List.Perm.swap x y ys))
    · exact List.Perm.refl _

theorem sortLT_perm (lt : GoStr → GoStr → Bool) (l : List GoStr) :
    (sortLT lt l).Perm l := by
  induction l with
  | nil => exact List.Perm.refl _
  | cons x xs ih =>
    exact (insertLT_perm lt x (sortLT lt xs)).trans (ih.cons x)

/-- The head of the skew-sorted candidate list has minimal skew among all
candidates. -/
theorem sortLT_head_min (repl : GoStr → Int × Int) (l : List GoStr) :
    ∀ c rest, sortLT (skewLT repl) l = c :: rest →
      ∀ y ∈ l, skewOf repl c ≤ skewOf repl y := by
  induction l with
  | nil => intro c rest h; exact absurd h (by simp [sortLT])
  | cons x xs ih =>
    intro c rest h y hy
    rw [show sortLT (skewLT repl) (x :: xs) = insertLT (skewLT repl) x (sortLT (skewLT repl) xs)
      from rfl] at h
    rcases hs : sortLT (skewLT repl) xs with _ | ⟨h0, t0⟩
    · have hxs : xs = [] := List.Perm.eq_nil (hs ▸ sortLT_perm (skewLT repl) xs).symm
      rw [hs] at h
      injection h with h1 h2
      subst h1
      rcases List.mem_cons.mp hy with hy | hy
      · rw [hy]
      · rw [hxs] at hy
        exact absurd hy (List.not_mem_nil y)
    · have hmin0 : ∀ z ∈ xs, skewOf repl h0 ≤ skewOf repl z := ih h0 t0 hs
      rw [hs] at h
      unfold insertLT at h
      by_cases hcmp : skewLT repl h0 x = true
      · rw [if_pos hcmp] at h
        injection h with h1 h2
        have hx : skewOf repl h0 < skewOf repl x := of_decide_eq_true hcmp
        rcases List.mem_cons.mp hy with hy | hy
        · rw [← h1, hy]
          exact le_of_lt hx
        · rw [← h1]
          exact hmin0 y hy
      · rw [if_neg hcmp] at h
        injection h with h1 h2
        have hx : ¬ (skewOf repl h0 < skewOf repl x) := by
          intro hlt
          exact hcmp (decide_eq_true hlt)
        rcases List.mem_cons.mp hy with hy | hy
        · rw [← h1, hy]
        · rw [← h1]
          exact le_trans (by omega) (hmin0 y hy)

/-- A greedy minimal-skew selection trace: each picked candidate has minimal
skew among ALL candidates remaining at its step, and after each pick the
picked base id's available counter is decremented for the rest of the trace.
(`rest` is the remaining candidate pool, a permutation of the pool minus the
pick — the pool order after a pick is the sort's output order.) -/
inductive GreedyTrace : (GoStr → Int × Int) → List GoStr → List GoStr → Prop where
  | nil (repl : GoStr → Int × Int) (cands : List GoStr) : GreedyTrace repl cands []
  | cons (repl : GoStr → Int × Int) (cands : List GoStr) (c : GoStr)
      (rest picks : List GoStr) :
      (c :: rest).Perm cands →
      (∀ y ∈ cands, skewOf repl c ≤ skewOf repl y) →
      GreedyTrace (replDec repl (AnnotatedID.GetID c)) rest picks →
      GreedyTrace repl cands (c :: picks)

theorem pickLoop_greedy (n : Nat) :
    ∀ (repl : GoStr → Int × Int) (cands picks : List GoStr),
      pickLoop repl cands n = some picks → GreedyTrace repl cands picks := by
  induction n with
  | zero =>
    intro repl cands picks h
    injection h with h
    rw [← h]
    exact GreedyTrace.nil repl cands
  | succ n ih =>
    intro repl cands picks h
    unfold pickLoop at h
    rcases hs : sortLT (skewLT repl) cands with _ | ⟨c, rest⟩
    · rw [hs] at h
      exact absurd h (by simp)
    · rw [hs] at h
      have h' : (pickLoop (replDec repl (AnnotatedID.GetID c)) rest n).map
          (fun ds => c :: ds) = some picks := h
      rcases hp : pickLoop (replDec repl (AnnotatedID.GetID c)) rest n with _ | picks'
      · rw [hp] at h'
        exact absurd h' (by simp)
      · rw [hp] at h'
        injection h' with h'
        rw [← h']
        refine GreedyTrace.cons repl cands c rest picks' ?_ ?_ (ih _ _ _ hp)
        · exact hs ▸ sortLT_perm (skewLT repl) cands
        · intro y hy
          exact sortLT_head_min repl cands c rest hs y hy

/-- The claim's OWN wording of the selection (used as the reference the code is
compared against): at each step pick, among the remaining candidates IN THEIR
INPUT ORDER, the FIRST one whose base id has minimal skew; remove it from the
remaining list (keeping the input order), decrement its base id's available
counter, and repeat. -/
def specInputOrderPick (n : Nat) : (GoStr → Int × Int) → List GoStr → Option (List GoStr) :=
  match n with
  | 0 => fun _ _ => some []
  | n + 1 => fun repl cands =>
    match cands.find? (fun c => cands.all (fun d =>
        decide (skewOf repl c ≤ skewOf repl d))) with
    | Option.none => none
    | Option.some c =>
      (specInputOrderPick n (replDec repl (AnnotatedID.GetID c)) (cands.erase c)).map
        (fun ds => c :: ds)

/-- A replica-annotated device record keyed by its own id, used by concrete
inputs. -/
def annDev (id : GoStr) : Device :=
  { ID := id, Health := healthyStr, Topology := none, Paths := [], Index := ['0'],
    TotalMemory := 0, ComputeCapability := [], Replicas := 0 }

/-- The annotated id "A::0". -/
def idA0 : GoStr := ['A', ':', ':', '0']

/-- The annotated id "A::1". -/
def idA1 : GoStr := ['A', ':', ':', '1']

/-- The annotated id "B::0". -/
def idB0 : GoStr := ['B', ':', ':', '0']

/-- The annotated id "B::1". -/
def idB1 : GoStr := ['B', ':', ':', '1']

/-- Inventory with two base ids A and B, two replicas each. -/
def invAB : Devices :=
  [(idA0, annDev idA0), (idA1, annDev idA1), (idB0, annDev idB0), (idB1, annDev idB1)]

/-- Claim C3, counterexample: ties are NOT broken by the candidates' input
order.  With inventory A::0, A::1, B::0, B::1 (2 replicas per base), candidates
in input order [B::0, B::1, A::0, A::1], no required ids and count 3: the code
picks B::0, then A::0, then — at a tie between A::1 and B::1 (both bases at
skew 1) — picks A::1, because after two sorts the remaining-candidate order is
the sorted order [A::1, B::1], not the input order.  The claim's own selection
rule (first minimal-skew candidate in input order) would pick B::1.  (With four
candidates Go's sort.Slice runs its insertion sort, which is exactly the
model's stable sort, so this is the concrete behavior of the Go code for this
candidate order.) -/
theorem distributedAlloc_tie_break_cex :
    distributedAlloc invAB [idB0, idB1, idA0, idA1] [] 3 = some [idB0, idA0, idA1]
      ∧ specInputOrderPick 3 (replInit invAB (candidatesOf invAB [idB0, idB1, idA0, idA1] []))
          (candidatesOf invAB [idB0, idB1, idA0, idA1] []) = some [idB0, idA0, idB1]
      ∧ ([idB0, idA0, idA1] : List GoStr) ≠ [idB0, idA0, idB1] := by
  refine ⟨by decide, by decide, by decide⟩

/-- Claim C3, amended: in every successful replica-distributed allocation the
count − |required| chosen ids are picked greedily: at each step the selected
candidate is one whose base id has the smallest (total replicas − currently
available replicas) skew among the remaining candidates — ties are broken by
the remaining-candidate order CURRENT at that step (the preceding sort's
output), which beyond the first step need not be the candidates' input order —
and after each pick the base id's available counter is decremented; hence no
candidate is ever selected while another remaining candidate's base id has
strictly smaller skew, so a base id is never re-selected while a strictly
less-loaded base id still has an unpicked candidate. -/
theorem distributedAlloc_greedy (devs : Devices) (available required : List GoStr)
    (size : Int) (ds : List GoStr) :
    distributedAlloc devs available required size = some ds →
    ∃ picks, ds = required ++ picks
      ∧ GreedyTrace (replInit devs (candidatesOf devs available required))
          (candidatesOf devs available required) picks := by
  intro h
  unfold distributedAlloc at h
  by_cases hlt : ((candidatesOf devs available required).length : Int)
      < size - (required.length : Int)
  · rw [if_pos hlt] at h
    exact absurd h (by simp)
  · rw [if_neg hlt] at h
    rcases hp : pickLoop (replInit devs (candidatesOf devs available required))
        (candidatesOf devs available required)
        (size - (required.length : Int)).toNat with _ | picks
    · rw [hp] at h
      exact absurd h (by simp)
    · rw [hp] at h
      injection h with h
      exact ⟨picks, h.symm, pickLoop_greedy _ _ _ _ hp⟩

/-- Witness for the amended claim C3 at the concrete input of the C2 witness. -/
theorem distributedAlloc_greedy_witness :
    distributedAlloc exDevs [['a'], ['b']] [['a']] 2 = some [['a'], ['b']]
      ∧ ∃ picks, ([['a'], ['b']] : List GoStr) = [['a']] ++ picks
          ∧ GreedyTrace (replInit exDevs (candidatesOf exDevs [['a'], ['b']] [['a']]))
              (candidatesOf exDevs [['a'], ['b']] [['a']]) picks :=
  ⟨by decide, distributedAlloc_greedy exDevs [['a'], ['b']] [['a']] 2 [['a'], ['b']] (by decide)⟩

/-! ### Crash-loop protection of the serving goroutine (src/unnamed/part_003, Serve)

The goroutine initialises `lastCrashTime := time.Now()` — the LOOP START time,
not the first crash — and `restartCount := 0`.  Each iteration first checks
`restartCount > 5` (fatal), then serves; on a transport failure it computes the
gap since `lastCrashTime` in seconds, updates `lastCrashTime`, and either
resets the counter (gap strictly above 3600 s) or increments it.  Timestamps
are modelled in integer nanoseconds: `time.Since(..).Seconds() > 3600` compares
float64 values, but every integer-nanosecond gap other than exactly 3600 s
differs from 3600 s by thousands of float64 ulps, so the integer comparison
`gap > 3600e9 ns` is exact. -/

/-- One hour in nanoseconds. -/
def hourNs : Int := 3600 * 1000000000

/-- The serving loop's mutable state: restart counter and last-crash time. -/
structure ServeState where
  restartCount : Nat
  lastCrashTime : Int
  deriving DecidableEq, Repr

/-- State update on a transport failure at time `t`: reset the counter when the
gap since the previous event exceeds one hour, increment it otherwise. -/
def serveCrashStep (st : ServeState) (t : Int) : ServeState :=
  if t - st.lastCrashTime > hourNs then { restartCount := 0, lastCrashTime := t }
  else { restartCount := st.restartCount + 1, lastCrashTime := t }

/-- Run the serving loop over a sequence of failure times, accumulating the
fatal flag: the `restartCount > 5` check at the top of the next iteration fires
exactly when the count after some crash prefix exceeds 5. -/
def serveRun (st : ServeState) (fatal : Bool) : List Int → ServeState × Bool
  | [] => (st, fatal)
  | t :: ts =>
    serveRun (serveCrashStep st t)
      (fatal || decide ((serveCrashStep st t).restartCount > 5)) ts

/-- Whether a server whose loop started at `start` and whose transport failed
at the given successive times reaches the fatal `restartCount > 5` check. -/
def serveFatal (start : Int) (crashes : List Int) : Bool :=
  (serveRun { restartCount := 0, lastCrashTime := start } false crashes).2

/-- Once the counter exceeds 5 on some prefix the run stays fatal. -/
theorem serveRun_fatal_mono (cs : List Int) :
    ∀ (st : ServeState), (serveRun st true cs).2 = true := by
  induction cs with
  | nil => intro st; rfl
  | cons t ts ih =>
    intro st
    unfold serveRun
    rw [Bool.true_or]
    exact ih _

theorem serveRun_spaced_never_fatal (rest : List Int) :
    ∀ (c : Nat) (last : Int), c ≤ 5 →
      List.Chain (fun a b => b - a > hourNs) last rest →
      (serveRun { restartCount := c, lastCrashTime := last } false rest).2 = false := by
  induction rest with
  | nil => intro c last _ _; rfl
  | cons t ts ih =>
    intro c last hc hch
    rw [List.chain_cons] at hch
    unfold serveRun
    rw [show serveCrashStep { restartCount := c, lastCrashTime := last } t
        = { restartCount := 0, lastCrashTime := t } by
      unfold serveCrashStep; rw [if_pos hch.1]]
    exact ih 0 t (by omega) hch.2

theorem serveRun_close_fatal (cs : List Int) :
    ∀ (c : Nat) (last : Int) (f : Bool), cs ≠ [] → c + cs.length > 5 →
      List.Chain (fun a b => b - a ≤ hourNs) last cs →
      (serveRun { restartCount := c, lastCrashTime := last } f cs).2 = true := by
  induction cs with
  | nil => intro c last f hne _ _; exact absurd rfl hne
  | cons t ts ih =>
    intro c last f _ hcount hch
    rw [List.chain_cons] at hch
    have hstep : serveCrashStep { restartCount := c, lastCrashTime := last } t
        = { restartCount := c + 1, lastCrashTime := t } := by
      unfold serveCrashStep
      rw [if_neg (show ¬(t - last > hourNs) by omega)]
    unfold serveRun
    rw [hstep]
    cases ts with
    | nil =>
      have h6 : (5 : Nat) < c + 1 := by simpa using hcount
      unfold serveRun
      simp [h6]
    | cons t' ts' =>
      by_cases hfatal : (5 : Nat) < c + 1
      · rw [show (f || decide ((ServeState.mk (c + 1) t).restartCount > 5)) = true by
          simp [hfatal]]
        exact serveRun_fatal_mono _ _
      · apply ih (c + 1) t _ (by simp) (by simp at hcount ⊢; omega) hch.2

/-- Claim C4, counterexample: 6 transport failures all within one hour of each
other do NOT always trigger the fatal case.  The initial `lastCrashTime` is the
LOOP START time: when the first failure happens more than an hour after start
(here at t = 4000 s for a loop started at t = 0), the first failure RESETS the
counter instead of counting, so six rapid failures only reach restartCount = 5
and the server keeps serving. -/
theorem serve_six_failures_within_hour_not_fatal_cex :
    serveFatal 0 [4000000000000, 4001000000000, 4002000000000, 4003000000000,
        4004000000000, 4005000000000] = false
      ∧ ((4005000000000 - 4000000000000 : Int) ≤ hourNs) := by
  decide

/-- Claim C4, amended: modelling the per-server crash-loop protection as a step
relation over (restart count, time of last event) fed by transport-failure
timestamps, with the time of last event INITIALISED TO THE SERVING LOOP'S START
TIME: (a) whenever the gap since the previous event exceeds one hour the
counter resets; (b) failures each spaced more than one hour apart never trigger
the fatal case, regardless of their count and of the loop start; (c) 6 or more
failures, each within one hour of the previous event COUNTING THE LOOP START AS
THE FIRST EVENT, always reach the fatal `restartCount > 5` check. -/
theorem serve_crash_loop_protection :
    (∀ (st : ServeState) (t : Int), t - st.lastCrashTime > hourNs →
        (serveCrashStep st t).restartCount = 0)
  ∧ (∀ (start c1 : Int) (rest : List Int),
        List.Chain (fun a b => b - a > hourNs) c1 rest →
        serveFatal start (c1 :: rest) = false)
  ∧ (∀ (start : Int) (cs : List Int),
        List.Chain (fun a b => b - a ≤ hourNs) start cs → 6 ≤ cs.length →
        serveFatal start cs = true) := by
  refine ⟨?_, ?_, ?_⟩
  · intro st t h
    unfold serveCrashStep
    rw [if_pos h]
  · intro start c1 rest hch
    unfold serveFatal serveRun
    by_cases hgap : c1 - start > hourNs
    · rw [show serveCrashStep { restartCount := 0, lastCrashTime := start } c1
          = { restartCount := 0, lastCrashTime := c1 } by
        unfold serveCrashStep; rw [if_pos hgap]]
      exact serveRun_spaced_never_fatal rest 0 c1 (by omega) hch
    · rw [show serveCrashStep { restartCount := 0, lastCrashTime := start } c1
          = { restartCount := 1, lastCrashTime := c1 } by
        unfold serveCrashStep; rw [if_neg hgap]]
      exact serveRun_spaced_never_fatal rest 1 c1 (by omega) hch
  · intro start cs hch hlen
    unfold serveFatal
    apply serveRun_close_fatal cs 0 start false _ (by omega) hch
    intro hnil
    rw [hnil] at hlen
    simp at hlen

/-- Witness for the amended claim C4 at concrete inputs: a reset step, five
spaced failures, and six rapid failures. -/
theorem serve_crash_loop_protection_witness :
    (serveCrashStep { restartCount := 3, lastCrashTime := 0 } (hourNs + 1)).restartCount = 0
  ∧ serveFatal 0 [hourNs + 1, 2 * hourNs + 2, 3 * hourNs + 3, 4 * hourNs + 4,
      5 * hourNs + 5] = false
  ∧ serveFatal 0 [1, 2, 3, 4, 5, 6] = true := by
  obtain ⟨h1, h2, h3⟩ := serve_crash_loop_protection
  refine ⟨h1 { restartCount := 3, lastCrashTime := 0 } (hourNs + 1) (by norm_num [hourNs]),
    h2 0 (hourNs + 1) [2 * hourNs + 2, 3 * hourNs + 3, 4 * hourNs + 4, 5 * hourNs + 5]
      (List.Chain.cons (by norm_num [hourNs]) (List.Chain.cons (by norm_num [hourNs])
        (List.Chain.cons (by norm_num [hourNs])
          (List.Chain.cons (by norm_num [hourNs]) List.Chain.nil)))),
    h3 0 [1, 2, 3, 4, 5, 6]
      (List.Chain.cons (by norm_num [hourNs]) (List.Chain.cons (by norm_num [hourNs])
        (List.Chain.cons (by norm_num [hourNs]) (List.Chain.cons (by norm_num [hourNs])
          (List.Chain.cons (by norm_num [hourNs])
            (List.Chain.cons (by norm_num [hourNs]) List.Chain.nil))))))
      (by decide)⟩

/-! ### Device Map construction (src/device/device_map.go) and loadPlugins
(src/unnamed/part_002)

`VisitDevices` enumerates the adapter's GPU units in index order and stops at
the first callback error; a unit is modelled by the results of the property
reads the builder performs on it.  `DeviceMap` (`map[string]Devices`) is an
insertion-ordered association list.  NOTE: when the visit errors, the Go
builder returns the SAME `devices` map it has been filling — entries added
before the failing unit remain in the returned (then discarded) map.  Error
values are modelled by a representative payload (the offending name / the
underlying read error); Go's fmt wrapping adds only message text. -/

/-- Resource descriptor (resource package): wildcard pattern and advertised
resource name. -/
structure Resource where
  Pattern : GoStr
  Name : GoStr
  deriving DecidableEq, Repr

/-- The MIG strategy strings. -/
def MigStrategyNone : GoStr := ['n', 'o', 'n', 'e']

/-- The "single" MIG strategy string. -/
def MigStrategySingle : GoStr := ['s', 'i', 'n', 'g', 'l', 'e']

/-- The "mixed" MIG strategy string. -/
def MigStrategyMixed : GoStr := ['m', 'i', 'x', 'e', 'd']

deriving instance DecidableEq for Except

/-- The results of the five property reads of `BuildDevice` on one unit (the
`deviceInfo` interface); a Go `(value, error)` pair is an `Except`. -/
structure DeviceData where
  uuid : Except GoStr GoStr
  paths : Except GoStr (List GoStr)
  numaNode : Except GoStr (Bool × Int)
  totalMemory : Except GoStr Nat
  computeCapability : Except GoStr GoStr
  deriving DecidableEq, Repr

/-- `BuildDevice(index, d)`: the five property reads in source order, the first
error aborting; health is initialised healthy and the topology is set exactly
when a NUMA node is reported. -/
def BuildDevice (index : GoStr) (d : DeviceData) : Except GoStr Device := do
  let uuid ← d.uuid
  let paths ← d.paths
  let numa ← d.numaNode
  let totalMemory ← d.totalMemory
  let computeCapability ← d.computeCapability
  pure { ID := uuid, Health := healthyStr,
         Topology := if numa.1 then some numa.2 else none,
         Paths := paths, Index := index, TotalMemory := totalMemory,
         ComputeCapability := computeCapability, Replicas := 0 }

/-- One enumerated GPU unit as `buildGPUDeviceMap`'s callback observes it:
name read, MIG-enabled read, and the property reads for BuildDevice. -/
structure GPUUnit where
  name : Except GoStr GoStr
  migEnabled : Except GoStr Bool
  info : DeviceData
  deriving DecidableEq, Repr

/-- One enumerated MIG unit as `buildMigDeviceMap`'s callback observes it:
parent/instance indices, profile read, property reads. -/
structure MigUnit where
  gpuIndex : Nat
  migIndex : Nat
  profile : Except GoStr GoStr
  info : DeviceData
  deriving DecidableEq, Repr

/-- Device Map: `map[string]Devices`, insertion-ordered. -/
abbrev DeviceMap := List (GoStr × Devices)

/-- Insertion-ordered map write `ds[k] = v`. -/
def devicesSet : Devices → GoStr → Device → Devices
  | [], k, v => [(k, v)]
  | (k', v') :: rest, k, v =>
    if k' == k then (k, v) :: rest else (k', v') :: devicesSet rest k v

/-- Insertion-ordered two-level map write `m[name][k] = v`, creating the inner
bucket when absent. -/
def deviceMapSet : DeviceMap → GoStr → GoStr → Device → DeviceMap
  | [], name, k, v => [(name, [(k, v)])]
  | (n', ds) :: rest, name, k, v =>
    if n' == name then (name, devicesSet ds k v) :: rest
    else (n', ds) :: deviceMapSet rest name k v

/-- `DeviceMap.setEntry`: build the Device and write `d[name][dev.ID] = dev`;
a BuildDevice failure propagates. -/
def DeviceMap.setEntry (m : DeviceMap) (name index : GoStr) (d : DeviceData) :
    Except GoStr DeviceMap :=
  match BuildDevice index d with
  | .error e => .error e
  | .ok dev => .ok (deviceMapSet m name dev.ID dev)

/-- The resource-matching loop of the builders: the first descriptor in
declaration order whose pattern accepts the name. -/
def firstMatch (resources : List Resource) (name : GoStr) : Option Resource :=
  resources.find? (fun r => matcherAccepts r.Pattern name)

/-- The visiting fold of `buildGPUDeviceMap`: per unit, read the name (error
aborts), read MIG-enabled (error aborts), skip MIG-enabled units unless the
strategy is "none", classify by first matching descriptor (no match aborts with
the unmatched name), and setEntry under index `i` (`newGPUDevice` renders the
visit index in decimal).  The map accumulated SO FAR is returned alongside the
error, exactly as the Go builder returns its partially filled map. -/
def buildGPUDeviceMapAux (migStrategy : GoStr) (resources : List Resource) :
    DeviceMap → Nat → List GPUUnit → DeviceMap × Option GoStr
  | m, _, [] => (m, none)
  | m, i, u :: us =>
    match u.name with
    | .error e => (m, some e)
    | .ok name =>
      match u.migEnabled with
      | .error e => (m, some e)
      | .ok mig =>
        if mig && !(migStrategy == MigStrategyNone) then
          buildGPUDeviceMapAux migStrategy resources m (i + 1) us
        else
          match firstMatch resources name with
          | Option.none => (m, some name)
          | Option.some r =>
            match DeviceMap.setEntry m r.Name (natToDecimal i) u.info with
            | .error e => (m, some e)
            | .ok m' => buildGPUDeviceMapAux migStrategy resources m' (i + 1) us

/-- `buildGPUDeviceMap`. -/
def buildGPUDeviceMap (migStrategy : GoStr) (resources : List Resource)
    (units : List GPUUnit) : DeviceMap × Option GoStr :=
  buildGPUDeviceMapAux migStrategy resources [] 0 units

/-- The visiting fold of `buildMigDeviceMap`: per MIG unit, read the profile
(error aborts), classify by first matching descriptor (no match aborts), and
setEntry under index `i:j`. -/
def buildMigDeviceMapAux (resources : List Resource) :
    DeviceMap → List MigUnit → DeviceMap × Option GoStr
  | m, [] => (m, none)
  | m, u :: us =>
    match u.profile with
    | .error e => (m, some e)
    | .ok prof =>
      match firstMatch resources prof with
      | Option.none => (m, some prof)
      | Option.some r =>
        match DeviceMap.setEntry m r.Name
            (natToDecimal u.gpuIndex ++ ':' :: natToDecimal u.migIndex) u.info with
        | .error e => (m, some e)
        | .ok m' => buildMigDeviceMapAux resources m' us

/-- `buildMigDeviceMap`. -/
def buildMigDeviceMap (resources : List Resource) (units : List MigUnit) :
    DeviceMap × Option GoStr :=
  buildMigDeviceMapAux resources [] units

/-- The `build` dispatch of the deviceMapBuilder: GPU map for "none"/"single",
MIG map for "mixed", error (with nil map) otherwise. -/
def buildDeviceMap (migStrategy : GoStr) (resources : List Resource)
    (gpuUnits : List GPUUnit) (migUnits : List MigUnit) : DeviceMap × Option GoStr :=
  if migStrategy == MigStrategyNone then buildGPUDeviceMap migStrategy resources gpuUnits
  else if migStrategy == MigStrategySingle then buildGPUDeviceMap migStrategy resources gpuUnits
  else if migStrategy == MigStrategyMixed then buildMigDeviceMap resources migUnits
  else ([], some migStrategy)

/-- `loadPlugins`: rebuild the device map; a build error is returned with NO
plugins created and the manager's published map left unassigned (`p.devices`
is only written after the error check); on success the map is published and
one plugin is created per map entry (`NewNvidiaDevicePlugin` never fails).
A plugin is modelled by its (resource name, inventory) pair. -/
def loadPlugins (migStrategy : GoStr) (resources : List Resource)
    (gpuUnits : List GPUUnit) (migUnits : List MigUnit) :
    Except GoStr (DeviceMap × List (GoStr × Devices)) :=
  match buildDeviceMap migStrategy resources gpuUnits migUnits with
  | (_, some e) => .error e
  | (m, Option.none) => .ok (m, m)

/-- Example healthy property reads for a unit, used by concrete inputs. -/
def okInfo : DeviceData :=
  { uuid := .ok ['u'], paths := .ok [], numaNode := .ok (false, 0),
    totalMemory := .ok 0, computeCapability := .ok [] }

/-- A unit whose every read succeeds and whose name is "X". -/
def okUnit : GPUUnit :=
  { name := .ok ['X'], migEnabled := .ok false, info := okInfo }

/-- A unit whose name read fails. -/
def badUnit : GPUUnit :=
  { name := .error ['E'], migEnabled := .ok false, info := okInfo }

/-- A catch-all resource descriptor: pattern "*", name "g". -/
def starResource : Resource := { Pattern := ['*'], Name := ['g'] }

/-- Claim C5, counterexample: a failing build does NOT return an empty map.
With descriptor "*" and units [ok "X", name-read-failure], the build errors
but the returned map still holds the entry created for the first unit. -/
theorem deviceMap_build_partial_on_error_cex :
    (buildGPUDeviceMap MigStrategyNone [starResource] [okUnit, badUnit]).2 = some ['E']
      ∧ (buildGPUDeviceMap MigStrategyNone [starResource] [okUnit, badUnit]).1 ≠ [] := by
  decide

/-- Claim C5, amended: a build in which any unit fails to match a descriptor or
any property read fails returns an error; the map value accompanying the error
may be PARTIALLY POPULATED, but it is never published: LoadPlugins returns the
build error with no servers created and its published device map unassigned,
and on success it publishes exactly the built map with one server per map
entry. -/
theorem loadPlugins_aborts_on_build_error (migStrategy : GoStr)
    (resources : List Resource) (gpuUnits : List GPUUnit) (migUnits : List MigUnit) :
    ((∃ e, (buildDeviceMap migStrategy resources gpuUnits migUnits).2 = some e) ↔
      (∃ e, loadPlugins migStrategy resources gpuUnits migUnits = .error e))
  ∧ ∀ m plugins, loadPlugins migStrategy resources gpuUnits migUnits = .ok (m, plugins) →
      ((buildDeviceMap migStrategy resources gpuUnits migUnits).2 = Option.none
        ∧ m = (buildDeviceMap migStrategy resources gpuUnits migUnits).1
        ∧ plugins = m) := by
  rcases hb : buildDeviceMap migStrategy resources gpuUnits migUnits with ⟨bm, berr⟩
  have hl : loadPlugins migStrategy resources gpuUnits migUnits
      = (match (bm, berr) with
        | (_, some e) => .error e
        | (m, Option.none) => .ok (m, m)) := by
    unfold loadPlugins
    rw [hb]
  cases berr with
  | none =>
    refine ⟨⟨?_, ?_⟩, ?_⟩
    · rintro ⟨e, he⟩
      exact absurd he (by simp)
    · rintro ⟨e, he⟩
      rw [hl] at he
      exact absurd he (by simp)
    · intro m plugins hok
      rw [hl] at hok
      injection hok with hok
      injection hok with h1 h2
      subst h1; subst h2
      exact ⟨rfl, rfl, rfl⟩
  | some e =>
    refine ⟨⟨?_, ?_⟩, ?_⟩
    · intro _
      exact ⟨e, by rw [hl]⟩
    · intro _
      exact ⟨e, rfl⟩
    · intro m plugins hok
      rw [hl] at hok
      exact absurd hok (by simp)

/-- The device record BuildDevice produces for `okInfo` at index "0". -/
def okBuiltDevice : Device :=
  { ID := ['u'], Health := healthyStr, Topology := none, Paths := [],
    Index := ['0'], TotalMemory := 0, ComputeCapability := [], Replicas := 0 }

/-- Witness for the amended claim C5 at a concrete successful input. -/
theorem loadPlugins_aborts_on_build_error_witness :
    loadPlugins MigStrategyNone [starResource] [okUnit] []
        = .ok ([(['g'], [(['u'], okBuiltDevice)])], [(['g'], [(['u'], okBuiltDevice)])])
      ∧ (buildDeviceMap MigStrategyNone [starResource] [okUnit] []).2 = Option.none
      ∧ ([(['g'], [(['u'], okBuiltDevice)])] : DeviceMap)
          = (buildDeviceMap MigStrategyNone [starResource] [okUnit] []).1 := by
  have h := (loadPlugins_aborts_on_build_error MigStrategyNone [starResource] [okUnit] []).2
      [(['g'], [(['u'], okBuiltDevice)])] [(['g'], [(['u'], okBuiltDevice)])] (by decide)
  exact ⟨by decide, h.1, h.2.1⟩

/-! ### startPlugins (src/unnamed/part_002 lines 113-140)

The start loop skips plugins with an empty inventory, invokes `Start` on the
others in order, and on the first `Start` failure sets the restart flag and
BREAKS — no further plugin is started in that pass. -/

/-- A plugin as `startPlugins` observes it: its inventory and whether its
`Start()` call succeeds. -/
structure PluginStart where
  devs : Devices
  startOk : Bool
  deriving DecidableEq, Repr

/-- The start loop: the list of plugins on which `Start` is invoked, in order,
paired with the restart flag. -/
def startPluginsLoop : List PluginStart → List PluginStart × Bool
  | [] => ([], false)
  | p :: rest =>
    if p.devs.length == 0 then startPluginsLoop rest
    else if p.startOk then
      ((startPluginsLoop rest).1.cons p, (startPluginsLoop rest).2)
    else ([p], true)

/-- Prefix up to and including the first start failure. -/
def takeThroughFirstFailure : List PluginStart → List PluginStart
  | [] => []
  | p :: rest => if p.startOk then p :: takeThroughFirstFailure rest else [p]

/-- Claim C8, counterexample: with two non-empty-inventory plugins of which the
FIRST fails to start, `Start` is invoked only on the first — the loop breaks —
so the invoked set is NOT the set of non-empty-inventory servers. -/
theorem startPlugins_break_cex :
    (startPluginsLoop [⟨exDevs, false⟩, ⟨exDevs, true⟩]).1 = [⟨exDevs, false⟩]
      ∧ (⟨exDevs, true⟩ : PluginStart) ∉ (startPluginsLoop [⟨exDevs, false⟩, ⟨exDevs, true⟩]).1
      ∧ (⟨exDevs, true⟩ : PluginStart).devs.length ≠ 0 := by
  decide

/-- Claim C8, amended: in every startPlugins pass a server with an empty
inventory is never started; the set of servers on which Start is invoked is the
non-empty-inventory servers UP TO AND INCLUDING THE FIRST WHOSE START FAILS
(the loop breaks there); in particular, when every Start succeeds it is exactly
the set of servers with a non-empty inventory, and over one empty and one
two-device resource exactly one server is started. -/
theorem takeThroughFirstFailure_subset (p : PluginStart) :
    ∀ l : List PluginStart, p ∈ takeThroughFirstFailure l → p ∈ l := by
  intro l
  induction l with
  | nil => intro h; exact h
  | cons q rest ih =>
    unfold takeThroughFirstFailure
    split
    · intro h
      rcases List.mem_cons.mp h with h | h
      · exact List.mem_cons.mpr (Or.inl h)
      · exact List.mem_cons.mpr (Or.inr (ih h))
    · intro h
      rcases List.mem_cons.mp h with h | h
      · exact List.mem_cons.mpr (Or.inl h)
      · exact absurd h (List.not_mem_nil p)

theorem takeThroughFirstFailure_all_ok :
    ∀ l : List PluginStart, (∀ p ∈ l, p.startOk = true) →
      takeThroughFirstFailure l = l := by
  intro l
  induction l with
  | nil => intro _; rfl
  | cons q rest ih =>
    intro h
    unfold takeThroughFirstFailure
    rw [if_pos (h q (List.mem_cons_self q rest)), ih (fun p hp => h p (List.mem_cons_of_mem q hp))]

theorem startPlugins_invocations (ps : List PluginStart) :
    (startPluginsLoop ps).1
        = takeThroughFirstFailure (ps.filter (fun p => !(p.devs.length == 0)))
  ∧ (∀ p ∈ (startPluginsLoop ps).1, p.devs.length ≠ 0)
  ∧ ((∀ p ∈ ps, p.startOk = true) →
      (startPluginsLoop ps).1 = ps.filter (fun p => !(p.devs.length == 0)))
  ∧ (startPluginsLoop [⟨[], true⟩, ⟨exDevs, true⟩]).1.length = 1 := by
  have hchar : ∀ qs : List PluginStart, (startPluginsLoop qs).1
      = takeThroughFirstFailure (qs.filter (fun p => !(p.devs.length == 0))) := by
    intro qs
    induction qs with
    | nil => rfl
    | cons p rest ih =>
      have eLoop : startPluginsLoop (p :: rest)
          = (if (p.devs.length == 0) = true then startPluginsLoop rest
            else if p.startOk = true
              then (p :: (startPluginsLoop rest).1, (startPluginsLoop rest).2)
              else ([p], true)) := rfl
      have eTake : ∀ (q : PluginStart) (l : List PluginStart),
          takeThroughFirstFailure (q :: l)
            = (if q.startOk = true then q :: takeThroughFirstFailure l else [q]) :=
        fun q l => rfl
      by_cases hp : (p.devs.length == 0) = true
      · rw [eLoop, if_pos hp, ih, List.filter_cons,
          show (!(p.devs.length == 0)) = false by rw [hp]; rfl]
        rfl
      · have hp0 : (p.devs.length == 0) = false := by
          cases hb : (p.devs.length == 0)
          · rfl
          · exact absurd hb hp
        rw [eLoop, if_neg hp, List.filter_cons,
          show (!(p.devs.length == 0)) = true by rw [hp0]; rfl, if_pos rfl, eTake]
        by_cases hok : p.startOk = true
        · rw [if_pos hok, if_pos hok, ← ih]
        · rw [if_neg hok, if_neg hok]
  refine ⟨hchar ps, ?_, ?_, by decide⟩
  · intro p hp
    rw [hchar ps] at hp
    have hmem : p ∈ ps.filter (fun q => !(q.devs.length == 0)) :=
      takeThroughFirstFailure_subset p _ hp
    have hlen := List.of_mem_filter hmem
    rw [Bool.not_eq_true'] at hlen
    intro h0
    rw [h0] at hlen
    exact absurd hlen (by decide)
  · intro hall
    rw [hchar ps]
    apply takeThroughFirstFailure_all_ok
    intro p hp
    exact hall p (List.mem_of_mem_filter hp)

/-- Witness for the amended claim C8 at the concrete input of the claim's own
scenario: one empty-inventory plugin and one two-device plugin, every Start
succeeding — Start is invoked exactly on the non-empty one. -/
theorem startPlugins_invocations_witness :
    (∀ p ∈ [PluginStart.mk [] true, PluginStart.mk exDevs true], p.startOk = true)
  ∧ (startPluginsLoop [PluginStart.mk [] true, PluginStart.mk exDevs true]).1
      = [PluginStart.mk exDevs true] := by
  have h := (startPlugins_invocations
      [PluginStart.mk [] true, PluginStart.mk exDevs true]).2.2.1
  refine ⟨by decide, ?_⟩
  rw [h (by decide)]
  decide

end GPUPlugin
